import Mathlib

/-!
# Verification of `async_pipeline_with_functions.cpp`

A shallow embedding of the asynchronous pipeline tutorial program
(`src/async_pipeline_with_functions.cpp`) together with proofs of the
properties its specification states.

The program submits 100 items.  Each item is a pair `(index, payload)`
(`std::pair<size_t, std::string>`); it flows through two transform stages
(`func1`, `func2`) launched with `std::async`, and finally through the
`visualize` sink, which busy-waits on an atomic counter `current_idx`
until it is this item's turn, prints, sleeps 1000 ms and then advances
the counter.  The main loop keeps at most `pipeline_depth` sink futures
in a deque, popping (and thereby blocking on) the oldest one when the
bound is exceeded.

The development has three layers:
* pure functions mirroring `func1`, `func2` and the input generation;
* a deterministic model of the admission-control deque in `main`;
* a nondeterministic labelled transition system modelling the concurrent
  execution of the sink invocations, with an explicit wall clock, over
  which the ordering, pacing and determinism properties are proved for
  every schedule.
-/

namespace AsyncPipeline

/-! ## Pure stage functions (lines 20-44) -/

/-- `func1` (lines 20-31): after `future_input.get()` returns `input`, the
function returns `(input.first, input.second + " func1")`.  The 900 ms
sleep only models latency and does not affect the value. -/
def func1 (input : Nat × String) : Nat × String :=
  (input.1, input.2 ++ " func1")

/-- `func2` (lines 37-44): returns `(input.first, input.second + " func2")`
after a 950 ms latency sleep. -/
def func2 (input : Nat × String) : Nat × String :=
  (input.1, input.2 ++ " func2")

/-- The input created for iteration `idx` of the submission loop
(lines 117-128): payload `"input_string_" + std::to_string(idx)` paired
with the sample index `idx`. -/
def makeInput (idx : Nat) : Nat × String :=
  (idx, "input_string_" ++ Nat.repr idx)

/-- The items submitted by the loop in `main` (lines 114-128): one per
iteration, in iteration order. -/
def submittedItems (n : Nat) : List (Nat × String) :=
  (List.range n).map makeInput

/-- The value carried by `future_2`, i.e. the item that reaches the
`visualize` sink for index `idx`: the input chained through `func1` then
`func2` (lines 133-137). -/
def pipelineItem (idx : Nat) : Nat × String :=
  func2 (func1 (makeInput idx))

/-- The payload printed by the sink for index `idx`. -/
def pipelinePayload (idx : Nat) : String :=
  (pipelineItem idx).2

/-! ## Failure propagation (§ error handling)

A stage function may throw; `std::future::get` rethrows the stored
exception, so a failure travels down the chain and is stored in the
`visualize` future's shared state.  `Except String` models a value or a
stored exception. -/

/-- A completed `visualize` future's shared state: either normal
completion or a stored exception. -/
inductive FutureOutcome where
  | completed
  | failed (msg : String)
deriving DecidableEq, Repr

/-- Outcome of the `visualize` task given the result of its input chain:
`future_input.get()` (line 55) rethrows a stored stage exception, which
then ends up stored in the `future_vis` shared state. -/
def visualizeOutcome (input : Except String (Nat × String)) : FutureOutcome :=
  match input with
  | .error m => .failed m
  | .ok _ => .completed

/-- The drain path (lines 163-166): `fut.get()` blocks and rethrows the
stored exception, so a stage failure is reported to the caller. -/
def futureGet (o : FutureOutcome) : Except String Unit :=
  match o with
  | .completed => .ok ()
  | .failed m => .error m

/-- The admission-bound eviction path (lines 151-156):
`visualize_futures.pop_front()` destroys the oldest future.  The
destructor of a `std::async` future blocks until the shared state is
ready but never rethrows a stored exception, so the caller gets no
report of a failure. -/
def futureDestroy (_o : FutureOutcome) : Except String Unit :=
  .ok ()

/-! ## The `visualize` sink body as an event trace (lines 51-89)

The body of one `visualize` invocation, after `future_input.get()`
returned `(idx, payload)`, performs in order: the busy-wait on
`current_idx` (lines 65-71), the `std::cout` emission (lines 74-76), the
1000 ms pacing sleep (line 84), and the store advancing `current_idx`
(line 88). -/

/-- Observable actions of one `visualize` invocation. -/
inductive VisEvent where
  | awaitTurn (idx : Nat)
  | emit (idx : Nat) (payload : String)
  | sleepPace (ms : Nat)
  | advance
deriving DecidableEq, BEq, Repr

/-- The straight-line event trace of one `visualize` invocation on input
`(idx, payload)`. -/
def visualizeTrace (input : Nat × String) : List VisEvent :=
  [.awaitTurn input.1, .emit input.1 input.2, .sleepPace 1000, .advance]

/-! ## Admission control in `main` (lines 105-159)

The deque `visualize_futures` of sink handles: each loop iteration pushes
the new handle, then pops (destroying, hence blocking on) the front one
if the size exceeds `pipeline_depth`.  We track the indices of the
handles held in the deque. -/

/-- One iteration of the submission loop acting on the deque of in-flight
handle indices (lines 147-156): `push_back` the new handle, then
`pop_front` if `size() > pipeline_depth`. -/
def submitStep (pipeline_depth : Nat) (q : List Nat) (idx : Nat) : List Nat :=
  if pipeline_depth < (q ++ [idx]).length then (q ++ [idx]).tail else q ++ [idx]

/-- The deque contents after the first `n` iterations of the submission
loop (line 114: `for idx = 0; idx < 100; idx++`). -/
def loopQueue (pipeline_depth n : Nat) : List Nat :=
  (List.range n).foldl (submitStep pipeline_depth) []

/-! ## Concurrent execution model

Each of the `N` submitted items runs its stage chain and its `visualize`
sink concurrently with all the others.  We model a run of the whole
program as an interleaving of atomic steps over a global state with an
explicit wall clock (in milliseconds).  The schedule — when each item's
stage chain completes and when each thread gets the CPU — is entirely
nondeterministic, so every theorem quantified over reachable states
covers every possible completion order.

Per item `i` the lifecycle is:
`pending` (stage chain still running) → `ready` (`future_input.get()` in
`visualize` returned; the thread busy-waits on `current_idx`) →
`sleeping wake` (it passed the gate with `current_idx = i`, printed, and
is inside the 1000 ms pacing sleep ending no earlier than `wake`) →
`done` (it stored `current_idx + 1` and returned). -/

/-- Status of one item's `visualize` task. -/
inductive TaskStatus where
  | pending
  | ready
  | sleeping (wake : Nat)
  | done
deriving DecidableEq, Repr

/-- One emission by the sink: the printed sample index, the printed
payload, and the wall-clock timestamp of the `std::cout` (lines 74-76). -/
structure Emission where
  idx : Nat
  payload : String
  time : Nat
deriving DecidableEq, Repr

/-- Global state of a run: the wall clock, the atomic `current_idx`
(line 109), the status of each item's sink task, and the ordered list of
emissions performed so far. -/
structure PipeState where
  time : Nat
  current_idx : Nat
  tasks : Nat → TaskStatus
  emitted : List Emission

/-- The initial state: clock at the captured `start_time`, `current_idx`
initialised to 0 (line 109), every task still pending, nothing emitted. -/
def initState : PipeState :=
  { time := 0, current_idx := 0, tasks := fun _ => .pending, emitted := [] }

/-- Labels of the atomic steps of a run. -/
inductive Label where
  | tick (d : Nat)
  | complete (i : Nat)
  | emitStep (i : Nat)
  | advanceStep (i : Nat)
deriving DecidableEq, Repr

/-- One atomic step of the concurrent execution, for a run of `N` items
with pacing interval `pace` and final payload `payload i` for item `i`:

* `tick`: wall time advances by an arbitrary amount (scheduling delay,
  other threads sleeping, the micro-sleep of the poll loop);
* `complete i`: item `i`'s stage chain finishes (`func1` then `func2`,
  with arbitrary latency) and its `visualize` thread obtains the input
  from `future_input.get()` (line 55) — allowed in any order across
  items;
* `emitStep i`: item `i`'s `visualize` thread observes
  `current_idx == i` (line 65), leaves the busy-wait and prints
  (lines 74-76); it then enters the pacing sleep, which ends no earlier
  than `time + pace` (line 84);
* `advanceStep i`: item `i`'s pacing sleep has elapsed and the thread
  stores `current_idx + 1` (line 88) and returns. -/
inductive Step (N pace : Nat) (payload : Nat → String) : PipeState → Label → PipeState → Prop where
  | tick (d : Nat) (s : PipeState) :
      Step N pace payload s (.tick d) { s with time := s.time + d }
  | complete (i : Nat) (s : PipeState) (hi : i < N) (h : s.tasks i = .pending) :
      Step N pace payload s (.complete i)
        { s with tasks := Function.update s.tasks i .ready }
  | emitStep (i : Nat) (s : PipeState) (hi : i < N) (h : s.tasks i = .ready)
      (hc : s.current_idx = i) :
      Step N pace payload s (.emitStep i)
        { s with tasks := Function.update s.tasks i (.sleeping (s.time + pace)),
                 emitted := s.emitted ++ [⟨i, payload i, s.time⟩] }
  | advanceStep (i w : Nat) (s : PipeState) (h : s.tasks i = .sleeping w)
      (hc : s.current_idx = i) (hw : w ≤ s.time) :
      Step N pace payload s (.advanceStep i)
        { s with tasks := Function.update s.tasks i .done,
                 current_idx := s.current_idx + 1 }

/-- The states reachable from the initial state by some schedule. -/
inductive Reachable (N pace : Nat) (payload : Nat → String) : PipeState → Prop where
  | init : Reachable N pace payload initState
  | step {s l s'} : Reachable N pace payload s → Step N pace payload s l s' →
      Reachable N pace payload s'

/-- `pipeline_depth` as configured in `main` (line 99). -/
def mainPipelineDepth : Nat := 2

/-- Number of samples submitted by `main` (line 114). -/
def mainSampleCount : Nat := 100

/-- The exit code returned by `main` (line 170). -/
def mainExitCode : Nat := 0

/-! ## The run invariant

`Inv` collects everything that holds in every reachable state; it is
preserved by every step and implies the order, pacing and determinism
properties. -/

/-- Invariant of the concurrent execution. -/
structure Inv (N pace : Nat) (payload : Nat → String) (s : PipeState) : Prop where
  /-- The emitted indices so far are exactly `0, 1, …` in order. -/
  idx_seq : s.emitted.map Emission.idx = List.range s.emitted.length
  /-- `current_idx` never overtakes the number of emissions. -/
  len_lb : s.current_idx ≤ s.emitted.length
  /-- At most one emission (the one inside its pacing sleep) is ahead of
  `current_idx`. -/
  len_ub : s.emitted.length ≤ s.current_idx + 1
  /-- No more emissions than submitted items. -/
  len_le : s.emitted.length ≤ N
  /-- Every item below `current_idx` has fully finished its sink. -/
  done_below : ∀ i, i < s.current_idx → s.tasks i = .done
  /-- Every item above `current_idx` has not yet passed the gate. -/
  fresh_above : ∀ i, s.current_idx < i → s.tasks i = .pending ∨ s.tasks i = .ready
  /-- Emitted payloads are the pipeline outputs for their index. -/
  payload_ok : ∀ e ∈ s.emitted, e.idx < N ∧ e.payload = payload e.idx
  /-- If the latest emission has not advanced the counter yet, its task is
  inside the pacing sleep that ends `pace` after its emission time. -/
  sleeping_cur : s.emitted.length = s.current_idx + 1 →
    ∃ e, s.emitted.getLast? = some e ∧ s.tasks s.current_idx = .sleeping (e.time + pace)
  /-- If the counter has caught up with the emissions, the item now
  holding the turn has not passed the gate. -/
  cur_fresh : s.emitted.length = s.current_idx →
    s.tasks s.current_idx = .pending ∨ s.tasks s.current_idx = .ready
  /-- Consecutive emission timestamps are at least `pace` apart. -/
  gaps : s.emitted.Chain' (fun a b => a.time + pace ≤ b.time)
  /-- Once the counter has advanced past the latest emission, a full
  pacing interval has elapsed since that emission. -/
  time_ready : s.emitted.length = s.current_idx →
    ∀ e, s.emitted.getLast? = some e → e.time + pace ≤ s.time
  /-- The clock is not behind the latest emission. -/
  time_mono : ∀ e, s.emitted.getLast? = some e → e.time ≤ s.time

/-! ## A concrete two-item run

A schedule for `N = 2` in which item 1's stage chain completes *before*
item 0's, yet the emissions still happen in index order.  Used to witness
the reachability-based theorems on concrete inputs. -/

/-- Concrete run, state after `complete 1`: item 1's stages finished
first. -/
def runS1 : PipeState :=
  { initState with tasks := Function.update initState.tasks 1 .ready }

/-- Concrete run, state after `complete 0`. -/
def runS2 : PipeState :=
  { runS1 with tasks := Function.update runS1.tasks 0 .ready }

/-- Concrete run, state after `emitStep 0`. -/
def runS3 : PipeState :=
  { runS2 with tasks := Function.update runS2.tasks 0 (.sleeping (runS2.time + 1000)),
               emitted := runS2.emitted ++ [⟨0, pipelinePayload 0, runS2.time⟩] }

/-- Concrete run, state after `tick 1000`. -/
def runS4 : PipeState :=
  { runS3 with time := runS3.time + 1000 }

/-- Concrete run, state after `advanceStep 0`. -/
def runS5 : PipeState :=
  { runS4 with tasks := Function.update runS4.tasks 0 .done,
               current_idx := runS4.current_idx + 1 }

/-- Concrete run, state after `emitStep 1`. -/
def runS6 : PipeState :=
  { runS5 with tasks := Function.update runS5.tasks 1 (.sleeping (runS5.time + 1000)),
               emitted := runS5.emitted ++ [⟨1, pipelinePayload 1, runS5.time⟩] }

/-- Concrete run, state after `tick 1000`. -/
def runS7 : PipeState :=
  { runS6 with time := runS6.time + 1000 }

/-- Concrete run, final state after `advanceStep 1`: both items emitted
and drained. -/
def runS8 : PipeState :=
  { runS7 with tasks := Function.update runS7.tasks 1 .done,
               current_idx := runS7.current_idx + 1 }

/-! ## Proofs: list helper -/

theorem getLast?_append_singleton {α : Type} (l : List α) (a : α) :
    (l ++ [a]).getLast? = some a := by
  rw [List.getLast?_append_of_ne_nil]
  · rfl
  · simp

/-! ## Proofs: the invariant holds in every reachable state -/

theorem inv_init (N pace : Nat) (payload : Nat → String) :
    Inv N pace payload initState where
  idx_seq := rfl
  len_lb := Nat.le_refl 0
  len_ub := Nat.zero_le 1
  len_le := Nat.zero_le N
  done_below := fun i hi => absurd hi (Nat.not_lt_zero i)
  fresh_above := fun _ _ => Or.inl rfl
  payload_ok := fun e he => absurd he (List.not_mem_nil e)
  sleeping_cur := fun h => absurd h (by simp [initState])
  cur_fresh := fun _ => Or.inl rfl
  gaps := List.chain'_nil
  time_ready := fun _ e he => by simp [initState] at he
  time_mono := fun e he => by simp [initState] at he

theorem inv_step {N pace : Nat} {payload : Nat → String} {s s' : PipeState} {l : Label}
    (inv : Inv N pace payload s) (st : Step N pace payload s l s') :
    Inv N pace payload s' := by
  cases st with
  | tick d =>
    exact { inv with
      time_ready := fun h e he => (inv.time_ready h e he).trans (Nat.le_add_right _ _)
      time_mono := fun e he => (inv.time_mono e he).trans (Nat.le_add_right _ _) }
  | complete i _ hi h =>
    have hine : ∀ j, s.tasks j ≠ .pending → j ≠ i := by
      intro j hj hji
      exact hj (hji ▸ h)
    refine { inv with
      done_below := ?_, fresh_above := ?_, sleeping_cur := ?_, cur_fresh := ?_ }
    · intro j hj
      have hji : j ≠ i := hine j (by rw [inv.done_below j hj]; intro hcon; cases hcon)
      show Function.update s.tasks i .ready j = .done
      rw [Function.update_noteq hji]
      exact inv.done_below j hj
    · intro j hj
      rcases eq_or_ne j i with rfl | hji
      · exact Or.inr (by simp [Function.update_same])
      · show Function.update s.tasks i .ready j = .pending ∨
          Function.update s.tasks i .ready j = .ready
        rw [Function.update_noteq hji]
        exact inv.fresh_above j hj
    · intro hl
      obtain ⟨e, he, ht⟩ := inv.sleeping_cur hl
      refine ⟨e, he, ?_⟩
      have hci : s.current_idx ≠ i := hine s.current_idx (by rw [ht]; intro hcon; cases hcon)
      show Function.update s.tasks i .ready s.current_idx = _
      rw [Function.update_noteq hci]
      exact ht
    · intro hl
      rcases eq_or_ne s.current_idx i with heq | hne
      · exact Or.inr (by rw [heq]; simp [Function.update_same])
      · show Function.update s.tasks i .ready s.current_idx = .pending ∨
          Function.update s.tasks i .ready s.current_idx = .ready
        rw [Function.update_noteq hne]
        exact inv.cur_fresh hl
  | emitStep i _ hi h hc =>
    have key : s.emitted.length = s.current_idx := by
      rcases Nat.lt_or_ge s.emitted.length (s.current_idx + 1) with hlt | hge
      · exact Nat.le_antisymm (Nat.lt_succ_iff.mp hlt) inv.len_lb
      · exfalso
        have heq : s.emitted.length = s.current_idx + 1 := Nat.le_antisymm inv.len_ub hge
        obtain ⟨e, _, ht⟩ := inv.sleeping_cur heq
        rw [hc, h] at ht
        cases ht
    have hlen : (s.emitted ++ [Emission.mk i (payload i) s.time]).length =
        s.emitted.length + 1 := by
      rw [List.length_append]
      rfl
    refine ⟨?_, ?_, ?_, ?_, ?_, ?_, ?_, ?_, ?_, ?_, ?_, ?_⟩
    · show (s.emitted ++ [Emission.mk i (payload i) s.time]).map Emission.idx =
        List.range (s.emitted ++ [Emission.mk i (payload i) s.time]).length
      rw [List.map_append, inv.idx_seq, hlen]
      rw [List.range_succ]
      have : i = s.emitted.length := by omega
      simp [this]
    · show s.current_idx ≤ (s.emitted ++ [Emission.mk i (payload i) s.time]).length
      rw [hlen]
      omega
    · show (s.emitted ++ [Emission.mk i (payload i) s.time]).length ≤ s.current_idx + 1
      rw [hlen]
      omega
    · show (s.emitted ++ [Emission.mk i (payload i) s.time]).length ≤ N
      rw [hlen]
      omega
    · intro j hj
      have hj' : j < s.current_idx := hj
      have hji : j ≠ i := by omega
      show Function.update s.tasks i _ j = .done
      rw [Function.update_noteq hji]
      exact inv.done_below j hj'
    · intro j hj
      have hj' : s.current_idx < j := hj
      have hji : j ≠ i := by omega
      show Function.update s.tasks i _ j = .pending ∨ Function.update s.tasks i _ j = .ready
      rw [Function.update_noteq hji]
      exact inv.fresh_above j hj'
    · intro e he
      rcases List.mem_append.mp he with hmem | hmem
      · exact inv.payload_ok e hmem
      · have he' : e = Emission.mk i (payload i) s.time := by simpa using hmem
        subst he'
        exact ⟨hi, rfl⟩
    · intro _
      refine ⟨Emission.mk i (payload i) s.time, getLast?_append_singleton _ _, ?_⟩
      show Function.update s.tasks i (.sleeping (s.time + pace)) s.current_idx = _
      rw [hc, Function.update_same]
    · intro hl
      have hl' : (s.emitted ++ [Emission.mk i (payload i) s.time]).length = s.current_idx := hl
      rw [hlen] at hl'
      omega
    · show (s.emitted ++ [Emission.mk i (payload i) s.time]).Chain' _
      rw [List.chain'_append]
      refine ⟨inv.gaps, List.chain'_singleton _, ?_⟩
      intro x hx y hy
      have hy' : y = Emission.mk i (payload i) s.time := by
        have := hy
        simp at this
        exact this.symm
      subst hy'
      exact inv.time_ready key x hx
    · intro hl
      have hl' : (s.emitted ++ [Emission.mk i (payload i) s.time]).length = s.current_idx := hl
      rw [hlen] at hl'
      omega
    · intro e he
      have he' : (s.emitted ++ [Emission.mk i (payload i) s.time]).getLast? = some e := he
      rw [getLast?_append_singleton] at he'
      cases he'
      exact Nat.le_refl _
  | advanceStep i w _ h hc hw =>
    have key : s.emitted.length = s.current_idx + 1 := by
      rcases Nat.lt_or_ge s.emitted.length (s.current_idx + 1) with hlt | hge
      · exfalso
        have heq : s.emitted.length = s.current_idx :=
          Nat.le_antisymm (Nat.lt_succ_iff.mp hlt) inv.len_lb
        rcases inv.cur_fresh heq with hp | hp <;> rw [hc, h] at hp <;> cases hp
      · exact Nat.le_antisymm inv.len_ub hge
    obtain ⟨elast, helast, htask⟩ := inv.sleeping_cur key
    have hweq : w = elast.time + pace := by
      rw [hc] at htask
      rw [h] at htask
      cases htask
      rfl
    refine ⟨inv.idx_seq, ?_, ?_, inv.len_le, ?_, ?_, inv.payload_ok, ?_, ?_, inv.gaps,
      ?_, inv.time_mono⟩
    · show s.current_idx + 1 ≤ s.emitted.length
      omega
    · show s.emitted.length ≤ s.current_idx + 1 + 1
      omega
    · intro j hj
      have hj' : j < s.current_idx + 1 := hj
      rcases eq_or_ne j i with rfl | hji
      · show Function.update s.tasks j .done j = .done
        rw [Function.update_same]
      · have hjc : j < s.current_idx := by omega
        show Function.update s.tasks i .done j = .done
        rw [Function.update_noteq hji]
        exact inv.done_below j hjc
    · intro j hj
      have hj' : s.current_idx + 1 < j := hj
      have hji : j ≠ i := by omega
      show Function.update s.tasks i .done j = .pending ∨
        Function.update s.tasks i .done j = .ready
      rw [Function.update_noteq hji]
      exact inv.fresh_above j (by omega)
    · intro hl
      have hl' : s.emitted.length = s.current_idx + 1 + 1 := hl
      omega
    · intro _
      have hji : s.current_idx + 1 ≠ i := by omega
      show Function.update s.tasks i .done (s.current_idx + 1) = .pending ∨
        Function.update s.tasks i .done (s.current_idx + 1) = .ready
      rw [Function.update_noteq hji]
      exact inv.fresh_above _ (Nat.lt_succ_self _)
    · intro _ e he
      rw [helast] at he
      cases he
      rw [← hweq]
      exact hw

/-- Every reachable state satisfies the invariant. -/
theorem inv_reachable {N pace : Nat} {payload : Nat → String} {s : PipeState}
    (hr : Reachable N pace payload s) : Inv N pace payload s := by
  induction hr with
  | init => exact inv_init N pace payload
  | step _ st ih => exact inv_step ih st

/-! ## Proofs: the concrete two-item run is a run of the system -/

theorem step_runS7_runS8 :
    Step 2 1000 pipelinePayload runS7 (.advanceStep 1) runS8 :=
  Step.advanceStep 1 (runS5.time + 1000) runS7 (by decide) (by decide) (by decide)

theorem runS8_reachable : Reachable 2 1000 pipelinePayload runS8 := by
  have h0 : Reachable 2 1000 pipelinePayload initState := .init
  have h1 : Reachable 2 1000 pipelinePayload runS1 :=
    .step h0 (Step.complete 1 initState (by decide) rfl)
  have h2 : Reachable 2 1000 pipelinePayload runS2 :=
    .step h1 (Step.complete 0 runS1 (by decide) (by decide))
  have h3 : Reachable 2 1000 pipelinePayload runS3 :=
    .step h2 (Step.emitStep 0 runS2 (by decide) (by decide) (by decide))
  have h4 : Reachable 2 1000 pipelinePayload runS4 :=
    .step h3 (Step.tick 1000 runS3)
  have h5 : Reachable 2 1000 pipelinePayload runS5 :=
    .step h4 (Step.advanceStep 0 (runS2.time + 1000) runS4 (by decide) (by decide) (by decide))
  have h6 : Reachable 2 1000 pipelinePayload runS6 :=
    .step h5 (Step.emitStep 1 runS5 (by decide) (by decide) (by decide))
  have h7 : Reachable 2 1000 pipelinePayload runS7 :=
    .step h6 (Step.tick 1000 runS6)
  exact .step h7 step_runS7_runS8

/-! ## Proofs: progress — every run can be extended until all items emit -/

theorem progress_ready {N pace : Nat} {payload : Nat → String} {s : PipeState}
    (hr : Reachable N pace payload s) (hi : s.current_idx < N)
    (h : s.tasks s.current_idx = .ready) :
    ∃ s', Reachable N pace payload s' ∧ s'.current_idx = s.current_idx + 1 := by
  have h1 := Reachable.step hr (Step.emitStep s.current_idx s hi h rfl)
  have h2 := Reachable.step h1 (Step.tick pace _)
  have h3 := Reachable.step h2
    (Step.advanceStep s.current_idx (s.time + pace) _
      (Function.update_same _ _ _) rfl (Nat.le_refl _))
  exact ⟨_, h3, rfl⟩

theorem progress {N pace : Nat} {payload : Nat → String} {s : PipeState}
    (hr : Reachable N pace payload s) (hlt : s.current_idx < N) :
    ∃ s', Reachable N pace payload s' ∧ s'.current_idx = s.current_idx + 1 := by
  have inv := inv_reachable hr
  rcases Nat.lt_or_ge s.emitted.length (s.current_idx + 1) with hlen | hlen
  · have heq : s.emitted.length = s.current_idx :=
      Nat.le_antisymm (Nat.lt_succ_iff.mp hlen) inv.len_lb
    rcases inv.cur_fresh heq with hp | hp
    · have h1 := Reachable.step hr (Step.complete s.current_idx s hlt hp)
      obtain ⟨s', hs', hc⟩ := progress_ready h1 hlt (Function.update_same _ _ _)
      exact ⟨s', hs', hc⟩
    · exact progress_ready hr hlt hp
  · have heq : s.emitted.length = s.current_idx + 1 := Nat.le_antisymm inv.len_ub hlen
    obtain ⟨e, helast, htask⟩ := inv.sleeping_cur heq
    have h1 := Reachable.step hr (Step.tick (e.time + pace - s.time) s)
    have h2 := Reachable.step h1
      (Step.advanceStep s.current_idx (e.time + pace) _ htask rfl
        (show e.time + pace ≤ s.time + (e.time + pace - s.time) by omega))
    exact ⟨_, h2, rfl⟩

theorem reach_current (N pace : Nat) (payload : Nat → String) :
    ∀ c, c ≤ N → ∃ s, Reachable N pace payload s ∧ s.current_idx = c := by
  intro c
  induction c with
  | zero => exact fun _ => ⟨initState, .init, rfl⟩
  | succ c ih =>
    intro hc
    obtain ⟨s, hs, hcur⟩ := ih (Nat.le_of_succ_le hc)
    obtain ⟨s', hs', hcur'⟩ := progress hs (by omega)
    exact ⟨s', hs', by omega⟩

/-- For every item count, pacing interval and payload function there is a
complete run: all `N` items get emitted, in index order. -/
theorem run_completes (N pace : Nat) (payload : Nat → String) :
    ∃ s, Reachable N pace payload s ∧ s.emitted.length = N ∧
      s.emitted.map Emission.idx = List.range N := by
  obtain ⟨s, hs, hcur⟩ := reach_current N pace payload N (Nat.le_refl N)
  have inv := inv_reachable hs
  have hlb := inv.len_lb
  have hub := inv.len_le
  have hlen : s.emitted.length = N := by omega
  refine ⟨s, hs, hlen, ?_⟩
  rw [inv.idx_seq, hlen]

/-! ## Proofs: admission-control deque -/

theorem loopQueue_succ (d n : Nat) :
    loopQueue d (n + 1) = submitStep d (loopQueue d n) n := by
  unfold loopQueue
  rw [List.range_succ, List.foldl_append]
  rfl

theorem loopQueue_length (d n : Nat) : (loopQueue d n).length ≤ d := by
  induction n with
  | zero => simp [loopQueue]
  | succ n ih =>
    rw [loopQueue_succ]
    unfold submitStep
    by_cases hck : d < (loopQueue d n ++ [n]).length
    · rw [if_pos hck]
      rw [List.length_tail, List.length_append]
      simp only [List.length_cons, List.length_nil]
      omega
    · rw [if_neg hck]
      omega

/-! ## Proofs: string and payload helpers -/

theorem str_append_assoc (a b c : String) : a ++ b ++ c = a ++ (b ++ c) := by
  apply String.ext
  simp [String.data_append]

theorem pipelinePayload_eq (i : Nat) :
    pipelinePayload i = "input_string_" ++ Nat.repr i ++ " func1 func2" := by
  show "input_string_" ++ Nat.repr i ++ " func1" ++ " func2" = _
  rw [str_append_assoc ("input_string_" ++ Nat.repr i)]
  have hlit : (" func1" ++ " func2" : String) = " func1 func2" := rfl
  rw [hlit]

/-- In every reachable state the emitted `(index, payload)` pairs are the
canonical sequence determined by the payload function alone. -/
theorem emitted_canonical {N pace : Nat} {payload : Nat → String} {s : PipeState}
    (hr : Reachable N pace payload s) :
    s.emitted.map (fun e => (e.idx, e.payload)) =
      (List.range s.emitted.length).map (fun i => (i, payload i)) := by
  have inv := inv_reachable hr
  apply List.ext_getElem
  · simp
  · intro j hj1 hj2
    have hjlen : j < s.emitted.length := by simpa using hj1
    have hidx : (s.emitted[j]).idx = j := by
      have h2 := inv.idx_seq
      have h3 : (s.emitted.map Emission.idx)[j]? = (List.range s.emitted.length)[j]? := by
        rw [h2]
      rw [List.getElem?_map, List.getElem?_range hjlen,
        List.getElem?_eq_getElem hjlen] at h3
      simpa using h3
    have hmem : s.emitted[j] ∈ s.emitted := List.getElem_mem hjlen
    have hpay := (inv.payload_ok _ hmem).2
    simp only [List.getElem_map, List.getElem_range]
    rw [hpay, hidx]

/-! ## The claims -/

/-- C1: for every run with `N` submitted items and no stage failures, the
sink's emissions occur in the exact index sequence `0, 1, …, N-1`,
regardless of the order in which the transform stages for different items
complete: in any reachable state of any schedule in which all `N` items
have been emitted, the emission list carries the indices `0, …, N-1` in
exactly that order. -/
theorem emissions_in_index_order (N pace : Nat) (payload : Nat → String) (s : PipeState)
    (hr : Reachable N pace payload s) (hall : s.emitted.length = N) :
    s.emitted.map Emission.idx = List.range N := by
  rw [(inv_reachable hr).idx_seq, hall]

/-- Witness for C1 on the concrete two-item schedule in which item 1's
stages complete before item 0's. -/
theorem emissions_in_index_order_witness :
    runS8.emitted.map Emission.idx = List.range 2 :=
  emissions_in_index_order 2 1000 pipelinePayload runS8 runS8_reachable (by decide)

/-- C2: the in-flight deque never exceeds `pipeline_depth` handles after
an iteration of the submission loop; transiently, right after the
`push_back` of a new handle and before the conditional `pop_front`, it
holds at most `pipeline_depth + 1` handles; and whenever the pushed size
exceeds `pipeline_depth` the oldest handle is removed before the
iteration returns. -/
theorem inflight_bound (pipeline_depth n : Nat) :
    (loopQueue pipeline_depth n).length ≤ pipeline_depth ∧
    (loopQueue pipeline_depth n ++ [n]).length ≤ pipeline_depth + 1 ∧
    (pipeline_depth < (loopQueue pipeline_depth n ++ [n]).length →
      loopQueue pipeline_depth (n + 1) = (loopQueue pipeline_depth n ++ [n]).tail) := by
  refine ⟨loopQueue_length pipeline_depth n, ?_, ?_⟩
  · have := loopQueue_length pipeline_depth n
    rw [List.length_append]
    simp only [List.length_cons, List.length_nil]
    omega
  · intro hck
    rw [loopQueue_succ]
    unfold submitStep
    rw [if_pos hck]

/-- C3: `func1` and `func2` carry the input's index through unchanged and
only replace the payload. -/
theorem stage_preserves_index (i : Nat) (s : String) :
    func1 (i, s) = (i, s ++ " func1") ∧ func2 (i, s) = (i, s ++ " func2") :=
  ⟨rfl, rfl⟩

/-- C4: the sink invocation holding the critical section calls
`advance` exactly once, it moves `current_idx` from `k` to `k + 1`, and
the store happens only after the emission and the full pacing sleep: an
`advanceStep` is only enabled once the task is in its pacing sleep and
the wall clock has passed the sleep's end, and the straight-line body of
`visualize` performs exactly one advance, strictly after the emission
and the 1000 ms sleep. -/
theorem advance_after_sleep {N pace : Nat} {payload : Nat → String} {s s' : PipeState}
    {i : Nat} (hst : Step N pace payload s (.advanceStep i) s') :
    s.current_idx = i ∧ s'.current_idx = i + 1 ∧
      (∃ w, s.tasks i = .sleeping w ∧ w ≤ s.time) ∧
      ∀ idx p, (visualizeTrace (idx, p)).count VisEvent.advance = 1 ∧
        visualizeTrace (idx, p) =
          [VisEvent.awaitTurn idx, VisEvent.emit idx p, VisEvent.sleepPace 1000] ++
            [VisEvent.advance] := by
  cases hst with
  | advanceStep i w _ h hc hw =>
    refine ⟨hc, ?_, ⟨w, h, hw⟩, ?_⟩
    · show s.current_idx + 1 = i + 1
      rw [hc]
    · intro idx p
      exact ⟨rfl, rfl⟩

/-- Witness for C4: the advance step of item 1 in the concrete run. -/
theorem advance_after_sleep_witness :
    runS7.current_idx = 1 ∧ runS8.current_idx = 2 ∧
      (∃ w, runS7.tasks 1 = .sleeping w ∧ w ≤ runS7.time) ∧
      ∀ idx p, (visualizeTrace (idx, p)).count VisEvent.advance = 1 ∧
        visualizeTrace (idx, p) =
          [VisEvent.awaitTurn idx, VisEvent.emit idx p, VisEvent.sleepPace 1000] ++
            [VisEvent.advance] :=
  advance_after_sleep step_runS7_runS8

/-- C5 counterexample: a stage failure stored in a sink handle is *not*
reported on the admission-bound eviction path — `pop_front()` runs the
future's destructor, which blocks until the shared state is ready but
discards a stored exception instead of rethrowing it. -/
theorem eviction_swallows_failure :
    futureDestroy (visualizeOutcome (Except.error "stage failure")) = Except.ok () ∧
      futureDestroy (visualizeOutcome (Except.error "stage failure")) ≠
        Except.error "stage failure" :=
  ⟨rfl, fun h => Except.noConfusion h⟩

/-- C5 (amended): a stage failure is reported to the Controller when it
awaits the item's handle with `fut.get()` on the drain path at shutdown;
on the admission-bound eviction path `pop_front()` only blocks until the
handle resolves and surfaces nothing. -/
theorem failure_reported_at_drain (m : String) :
    futureGet (visualizeOutcome (Except.error m)) = Except.error m ∧
      futureDestroy (visualizeOutcome (Except.error m)) = Except.ok () :=
  ⟨rfl, rfl⟩

/-- C6: submitting `n` items assigns exactly the index set
`{0, …, n-1}`: the indices paired with the submitted payloads are the
monotone sequence `0, 1, …, n-1` in submission order, each assigned
exactly once and never reused. -/
theorem index_assignment (n : Nat) :
    (submittedItems n).map Prod.fst = List.range n ∧
      ((submittedItems n).map Prod.fst).Nodup := by
  have hmap : (submittedItems n).map Prod.fst = List.range n := by
    unfold submittedItems
    rw [List.map_map]
    have : Prod.fst ∘ makeInput = id := by
      funext i
      rfl
    rw [this, List.map_id]
  exact ⟨hmap, by rw [hmap]; exact List.nodup_range n⟩

/-- C7: in any run, any two consecutive emissions are at least the
1000 ms pacing interval apart in wall-clock time: the emission
timestamps recorded in any reachable state form a chain with gaps of at
least 1000 ms. -/
theorem pacing_gap {N : Nat} {payload : Nat → String} {s : PipeState}
    (hr : Reachable N 1000 payload s) :
    s.emitted.Chain' (fun a b => a.time + 1000 ≤ b.time) :=
  (inv_reachable hr).gaps

/-- Witness for C7 on the concrete two-item run: emissions at times 0
and 1000. -/
theorem pacing_gap_witness :
    runS8.emitted.Chain' (fun a b => a.time + 1000 ≤ b.time) :=
  pacing_gap runS8_reachable

/-- C8: every payload delivered to and emitted by the sink for index `i`
is exactly `"input_string_" ++ i ++ " func1 func2"`: the generated input
payload with the two stage suffixes appended in stage order. -/
theorem emitted_payload_shape {N : Nat} {s : PipeState}
    (hr : Reachable N 1000 pipelinePayload s) :
    ∀ e ∈ s.emitted, e.payload = "input_string_" ++ Nat.repr e.idx ++ " func1 func2" := by
  intro e he
  have h := ((inv_reachable hr).payload_ok e he).2
  rw [h, pipelinePayload_eq]

/-- Witness for C8: the first emission of the concrete run carries
payload `"input_string_0 func1 func2"`. -/
theorem emitted_payload_shape_witness :
    (Emission.mk 0 (pipelinePayload 0) 0).payload =
      "input_string_" ++ Nat.repr 0 ++ " func1 func2" :=
  emitted_payload_shape runS8_reachable (Emission.mk 0 (pipelinePayload 0) 0) (by decide)

/-- C9: the emitted `(index, payload)` sequence is deterministic — two
complete runs of the program under any two schedules (any thread
interleavings, any stage completion orders) emit the same pairs in the
same order. -/
theorem deterministic_emissions {N : Nat} {payload : Nat → String} {s₁ s₂ : PipeState}
    (h₁ : Reachable N 1000 payload s₁) (h₂ : Reachable N 1000 payload s₂)
    (hl₁ : s₁.emitted.length = N) (hl₂ : s₂.emitted.length = N) :
    s₁.emitted.map (fun e => (e.idx, e.payload)) =
      s₂.emitted.map (fun e => (e.idx, e.payload)) := by
  rw [emitted_canonical h₁, emitted_canonical h₂, hl₁, hl₂]

/-- Witness for C9, applying determinism to the complete two-item run. -/
theorem deterministic_emissions_witness :
    runS8.emitted.map (fun e => (e.idx, e.payload)) =
      runS8.emitted.map (fun e => (e.idx, e.payload)) :=
  deterministic_emissions runS8_reachable runS8_reachable (by decide) (by decide)

set_option maxRecDepth 4000 in
/-- C10: provided every stage and sink invocation completes, the program
terminates: the submission loop runs exactly 100 iterations, a schedule
completing every task emits exactly the 100 samples `0, …, 99` in order,
the final drain loop awaits the two handles remaining in the deque
(items 98 and 99), and `main` returns 0. -/
theorem program_terminates :
    (∃ s, Reachable 100 1000 pipelinePayload s ∧ s.emitted.length = 100 ∧
      s.emitted.map Emission.idx = List.range 100) ∧
      (List.range mainSampleCount).length = 100 ∧
      loopQueue mainPipelineDepth mainSampleCount = [98, 99] ∧
      mainExitCode = 0 := by
  refine ⟨run_completes 100 1000 pipelinePayload, rfl, ?_, rfl⟩
  decide

end AsyncPipeline
